import Mathlib

/-!
Verification of the spatial-sampling and affine-geometry helpers of
`monai/transforms/utils.py` against their natural-language specification.

Conventions of the embedding:
* numpy float64 arithmetic is modelled by `ℚ`; every float expression that
  occurs in the verified code paths (`x / 2`, integer additions and
  subtractions of moderate magnitude) is exact in float64, so the model is
  exact as well;
* machine integers are `ℕ`/`ℤ` with explicit `% 65536` where the code casts
  to `np.uint16`;
* functions that can raise return `Except String _`;
* random-number generators are modelled by explicitly supplied draw lists;
  the numpy RNG contract (`random()` in `[0,1)`, `randint(n)` in `[0,n)`)
  becomes hypotheses on those lists.
-/

set_option maxRecDepth 4000

deriving instance DecidableEq for Except

/-- Row-major `np.unravel_index`: first coordinate is `i` divided by the
product of the remaining dimensions, and so on. -/
def unravel_index : ℕ → List ℕ → List ℕ
  | _, [] => []
  | i, _ :: ds => i / ds.prod :: unravel_index (i % ds.prod) ds

/-- Row-major flat index of a multi-index (`np.ravel_multi_index`). -/
def ravelIdx : List ℕ → List ℕ → ℕ
  | [], _ => 0
  | _, [] => 0
  | i :: is, _ :: ds => i * ds.prod + ravelIdx is ds

/-! ### `correct_crop_centers` (utils.py lines 470-511) -/

/-- numpy `astype(np.uint16)` applied to a (nonnegative in all reachable
uses) float value: truncation to an integer, then reduction modulo `2^16`.
`Rat.floor` agrees with truncation toward zero on the nonnegative values
this is applied to. -/
def toUInt16 (x : ℚ) : ℕ := (x.floor % 65536).toNat

/-- Per-axis lower bound: `valid_start = np.floor_divide(spatial_size, 2)`. -/
def validStart (s : ℕ) : ℕ := s / 2

/-- Per-axis stored upper bound:
`np.subtract(label_spatial_shape + np.array(1), spatial_size / np.array(2)).astype(np.uint16)`.
The float value `l + 1 - s/2` is exact in float64. -/
def validEnd0 (l s : ℕ) : ℕ := toUInt16 ((l : ℚ) + 1 - (s : ℚ) / 2)

/-- The `for i, valid_s in enumerate(valid_start)` loop: when the lower bound
equals the stored upper bound the latter is incremented by one, in uint16
arithmetic (wrapping at `2^16`). -/
def validEnd1 (l s : ℕ) : ℕ :=
  if validStart s = validEnd0 l s then (validEnd0 l s + 1) % 65536 else validEnd0 l s

/-- Per-axis output `center_i = min(max(c, valid_s), valid_end - 1)`; the
subtraction `valid_end - 1` happens on the uint16 value, hence also wraps. -/
def clampAxis (c : ℤ) (l s : ℕ) : ℤ :=
  min (max c (validStart s : ℤ)) (((validEnd1 l s + 65535) % 65536 : ℕ) : ℤ)

/-- `zip(centers, valid_start, valid_end)` loop body; `pairs` carries
`(label_dim, patch_dim)` per axis. -/
def cropCore (centers : List ℤ) (pairs : List (ℕ × ℕ)) : List ℤ :=
  (centers.zip pairs).map fun x => clampAxis x.1 x.2.1 x.2.2

/-- `correct_crop_centers(centers, spatial_size, label_spatial_shape, allow_smaller)`.
`spatialSize` is the effective per-axis ROI size (the caller-side
`fall_back_tuple` resolution to a positive tuple happens outside `src`). -/
def correct_crop_centers (centers : List ℤ) (spatialSize labelShape : List ℕ)
    (allowSmaller : Bool) : Except String (List ℤ) :=
  if (labelShape.zip spatialSize).any (fun p => p.1 < p.2) then
    if allowSmaller then
      .ok (cropCore centers (labelShape.zip (List.zipWith min labelShape spatialSize)))
    else
      .error "The size of the proposed random crop ROI is larger than the image size"
  else
    .ok (cropCore centers (labelShape.zip spatialSize))

/-! Executable twin of `correct_crop_centers` over `ℕ` only.  For every
per-axis pair that the code actually evaluates the patch size is at most the
label size, and on those inputs `validEnd0N` agrees with the float/uint16
computation above (`validEnd0_eq` below); `correct_crop_centers_exec_eq`
states the unconditional agreement of the two full functions. -/

/-- `ℕ`-only evaluation of the stored uint16 upper bound (for `s ≤ 2l+2`):
`trunc(l + 1 - s/2) = (2l + 2 - s)/2`, reduced modulo `2^16`. -/
def validEnd0N (l s : ℕ) : ℕ := ((2 * l + 2 - s) / 2) % 65536

/-- Twin of `validEnd1`. -/
def validEnd1N (l s : ℕ) : ℕ :=
  if validStart s = validEnd0N l s then (validEnd0N l s + 1) % 65536 else validEnd0N l s

/-- Twin of `clampAxis`. -/
def clampAxisN (c : ℤ) (l s : ℕ) : ℤ :=
  min (max c (validStart s : ℤ)) (((validEnd1N l s + 65535) % 65536 : ℕ) : ℤ)

/-- Twin of `cropCore`. -/
def cropCoreN (centers : List ℤ) (pairs : List (ℕ × ℕ)) : List ℤ :=
  (centers.zip pairs).map fun x => clampAxisN x.1 x.2.1 x.2.2

/-- Twin of `correct_crop_centers`. -/
def correct_crop_centersN (centers : List ℤ) (spatialSize labelShape : List ℕ)
    (allowSmaller : Bool) : Except String (List ℤ) :=
  if (labelShape.zip spatialSize).any (fun p => p.1 < p.2) then
    if allowSmaller then
      .ok (cropCoreN centers (labelShape.zip (List.zipWith min labelShape spatialSize)))
    else
      .error "The size of the proposed random crop ROI is larger than the image size"
  else
    .ok (cropCoreN centers (labelShape.zip spatialSize))

/-! The specification's reading of `correct_crop_centers` (for the refinement
claim): per axis the valid range is `[floor(patch/2), label + 1 - ceil(patch/2))`
in unbounded integer arithmetic, the upper bound is incremented when the two
bounds collide, and the requested center is clamped into
`[valid_start, valid_end - 1]`. -/

/-- Modelled from the spec: per-axis upper bound `label_dim + 1 - ceil(patch/2)`
computed with (unbounded) integer arithmetic. -/
def validEndSpec (l s : ℕ) : ℤ := (l : ℤ) + 1 - ((s : ℤ) + 1) / 2

/-- Modelled from the spec: increment the upper bound when it equals the lower. -/
def validEndSpec1 (l s : ℕ) : ℤ :=
  if (validStart s : ℤ) = validEndSpec l s then validEndSpec l s + 1 else validEndSpec l s

/-- Modelled from the spec: clamp into `[valid_start, valid_end - 1]`. -/
def clampAxisSpec (c : ℤ) (l s : ℕ) : ℤ :=
  min (max c (validStart s : ℤ)) (validEndSpec1 l s - 1)

/-- Modelled from the spec: `correct_crop_centers` with the unbounded-integer
valid range; error handling and smaller-axis handling as in the code. -/
def correct_crop_centers_spec (centers : List ℤ) (spatialSize labelShape : List ℕ)
    (allowSmaller : Bool) : Except String (List ℤ) :=
  if (labelShape.zip spatialSize).any (fun p => p.1 < p.2) then
    if allowSmaller then
      .ok ((centers.zip (labelShape.zip (List.zipWith min labelShape spatialSize))).map
        fun x => clampAxisSpec x.1 x.2.1 x.2.2)
    else
      .error "The size of the proposed random crop ROI is larger than the image size"
  else
    .ok ((centers.zip (labelShape.zip spatialSize)).map
      fun x => clampAxisSpec x.1 x.2.1 x.2.2)

/-! ### `weighted_patch_samples` (utils.py lines 422-467) -/

/-- Start of the per-axis valid-window slice:
`slice(w//2, m - w + w//2)` when `m > w`, else `slice(m//2, m//2 + 1)`. -/
def windowStart (w m : ℕ) : ℕ := if m > w then w / 2 else m / 2

/-- Length of the per-axis valid-window slice. -/
def windowSize (w m : ℕ) : ℕ := if m > w then m - w else 1

/-- All multi-indices of a shape, in row-major order. -/
def gridIndices : List ℕ → List (List ℕ)
  | [] => [[]]
  | d :: ds => (List.range d).flatMap fun i => (gridIndices ds).map (i :: ·)

/-- Minimum of a list (`v.min()`; list nonempty in all reachable uses). -/
def listMin : List ℚ → ℚ
  | [] => 0
  | [x] => x
  | x :: y :: xs => min x (listMin (y :: xs))

/-- `np.cumsum`. -/
def cumsum (l : List ℚ) : List ℚ := go 0 l where
  go : ℚ → List ℚ → List ℚ
    | _, [] => []
    | acc, x :: xs => (acc + x) :: go (acc + x) xs

/-- `v = ravel(w[s])`: the weight map restricted to the valid window and
flattened row-major.  `w` is the row-major flattening of the full weight map
of shape `imgSize`. -/
def windowedWeights (winSize imgSize : List ℕ) (w : List ℚ) : List ℚ :=
  (gridIndices (List.zipWith windowSize winSize imgSize)).map fun loc =>
    w.getD (ravelIdx (List.zipWith (· + ·) loc (List.zipWith windowStart winSize imgSize)) imgSize) 0

/-- `if (v < 0).any(): v -= v.min()` — shift to non-negative. -/
def shiftedWeights (v : List ℚ) : List ℚ :=
  if v.any (fun x => x < 0) then v.map (fun x => x - listMin v) else v

/-- The cumulative total `v[-1]` after windowing, shifting and `cumsum`. -/
def cumTotal (winSize imgSize : List ℕ) (w : List ℚ) : ℚ :=
  (cumsum (shiftedWeights (windowedWeights winSize imgSize w))).getLastD 0

/-- `np.searchsorted(v, key, side="right")` on a sorted list: the number of
elements that are `≤ key`. -/
def searchsortedRight (v : List ℚ) (key : ℚ) : ℕ := v.countP fun x => x ≤ key

/-- `weighted_patch_samples(spatial_size, w, n_samples, r_state)`.
`winSize` is the effective patch size (`fall_back_tuple` resolved outside
`src`), `imgSize = w.shape`, `w` the row-major weight values.  The RNG is
modelled by `uniformDraws` (what `r_state.randint(0, len(v), size=n)` would
return) and `realDraws` (what `r_state.random(n)` would return).  `isfinite`
is identically true on `ℚ`, so the degenerate-weight test keeps only the
zero/negative disjuncts. -/
def weighted_patch_samples (winSize imgSize : List ℕ) (w : List ℚ)
    (uniformDraws : List ℕ) (realDraws : List ℚ) : List (List ℕ) :=
  let vSize := List.zipWith windowSize winSize imgSize
  let v := shiftedWeights (windowedWeights winSize imgSize w)
  let cs := cumsum v
  let total := cs.getLastD 0
  let idx : List ℕ :=
    if total = 0 ∨ total < 0 then uniformDraws
    else realDraws.map fun r => searchsortedRight cs (r * total)
  let diff := List.zipWith (fun a b => min a b / 2) winSize imgSize
  idx.map fun i => List.zipWith (· + ·) (unravel_index i vSize) diff

/-! ### `generate_pos_neg_label_crop_centers` (utils.py lines 514-569) -/

/-- Sequencing of a fallible loop body over a list, aborting at the first
error (the Python `for` loop raising mid-way). -/
def exceptMapList : List α → (α → Except String β) → Except String (List β)
  | [], _ => .ok []
  | a :: as, f =>
    match f a with
    | .error e => .error e
    | .ok b =>
      match exceptMapList as f with
      | .error e => .error e
      | .ok bs => .ok (b :: bs)

/-- Reference computation: every one of `numSamples` draws takes its flat
index from the single set `set` (used to state that a forced `pos_ratio`
makes every draw select the non-empty side). -/
def samplesFromSet (set : List ℕ) (spatialSize labelShape : List ℕ) (numSamples : ℕ)
    (draws : List (ℚ × ℕ)) (allowSmaller : Bool) : Except String (List (List ℤ)) :=
  exceptMapList (List.range numSamples) fun i =>
    correct_crop_centers
      ((unravel_index (set.getD (draws.getD i (0, 0)).2 0) labelShape).map (· : ℕ → ℤ))
      spatialSize labelShape allowSmaller

/-- `generate_pos_neg_label_crop_centers`.  Each loop iteration consumes one
`(rand(), randint)` pair from `draws`; the warning is returned as a `Bool`
flag.  The `randint(len(indices_to_use))` value is in `[0, len)` by the RNG
contract; out-of-range model values index through `getD _ 0`. -/
def generate_pos_neg_label_crop_centers (spatialSize : List ℕ) (numSamples : ℕ)
    (posRatio : ℚ) (labelShape : List ℕ) (fgIndices bgIndices : List ℕ)
    (draws : List (ℚ × ℕ)) (allowSmaller : Bool) :
    Except String (List (List ℤ) × Bool) :=
  if fgIndices.length = 0 ∧ bgIndices.length = 0 then
    .error "No sampling location available."
  else
    let warned := fgIndices.length = 0 ∨ bgIndices.length = 0
    let ratio : ℚ :=
      if fgIndices.length = 0 ∨ bgIndices.length = 0 then
        (if fgIndices.length = 0 then 0 else 1)
      else posRatio
    match exceptMapList (List.range numSamples) fun i =>
        let d := draws.getD i (0, 0)
        let toUse := if d.1 < ratio then fgIndices else bgIndices
        correct_crop_centers
          ((unravel_index (toUse.getD d.2 0) labelShape).map (· : ℕ → ℤ))
          spatialSize labelShape allowSmaller with
    | .error e => .error e
    | .ok centers => .ok (centers, decide warned)

/-! ### `generate_spatial_bounding_box` (utils.py lines 943-1003),
specialised to a channel-first 2-D volume and the default strictly-positive
selector, which is what the claims exercise.  Margins are modelled as `ℕ`
(the source raises on negative margins before any computation). -/

/-- `is_positive(img) = img > 0` per element. -/
def is_positive (x : ℚ) : Bool := 0 < x

/-- Ascending positions of `true` (`where(dt == dt.max())[0]` for a boolean
mask that contains a `true`). -/
def trueIdxs (proj : List Bool) : List ℕ :=
  (List.range proj.length).filter fun i => proj.getD i false

/-- One axis of the bounding-box loop: start is first-true minus margin, end
is last-true plus margin plus one, clipped to `[0, dim]` when `allow_smaller`. -/
def axisBox (proj : List Bool) (margin dim : ℕ) (allowSmaller : Bool) : ℤ × ℤ :=
  let ts := trueIdxs proj
  let mn : ℤ := (ts.headD 0 : ℤ) - margin
  let mx : ℤ := (ts.getLastD 0 : ℤ) + margin + 1
  if allowSmaller then (max mn 0, min mx dim) else (mn, mx)

/-- `generate_spatial_bounding_box(img, is_positive, None, margin, allow_smaller)`
for a `(C, H, W)` volume: per-channel positivity reduced with `any` over the
channel axis, then per spatial axis an `any` reduction over the other axis;
an all-false projection returns the all-zero sentinel. -/
def generate_spatial_bounding_box (img : List (List (List ℚ)))
    (margin0 margin1 : ℕ) (allowSmaller : Bool) : List ℤ × List ℤ :=
  let H := (img.headD []).length
  let W := ((img.headD []).headD []).length
  let cell : ℕ → ℕ → Bool := fun i j =>
    img.any fun ch => is_positive ((ch.getD i []).getD j 0)
  let proj0 := (List.range H).map fun i => (List.range W).any fun j => cell i j
  let proj1 := (List.range W).map fun j => (List.range H).any fun i => cell i j
  if ¬ proj0.any id ∨ ¬ proj1.any id then ([0, 0], [0, 0])
  else
    let b0 := axisBox proj0 margin0 H allowSmaller
    let b1 := axisBox proj1 margin1 W allowSmaller
    ([b0.1, b1.1], [b0.2, b1.2])

/-! ### `_create_rotate` / `_create_shear` / `_create_scale` /
`_create_translate` (utils.py lines 771-815, 856-869, 898-901, 933-940).
The source receives `sin`/`cos`/`eye` as injected callables and mutates
entries of an identity matrix; `updM` models one entry assignment. -/

/-- `A[i, j] = v` on a square matrix. -/
def updM {n : ℕ} (A : Matrix (Fin n) (Fin n) ℚ) (i j : Fin n) (v : ℚ) :
    Matrix (Fin n) (Fin n) ℚ :=
  fun i' j' => if i' = i ∧ j' = j then v else A i' j'

/-- Rank-2 rotation as built by the source: `eye(3)` with the four entries
`[0,0],[0,1],[1,0],[1,1]` assigned. -/
def rot2dBuilt (s c : ℚ) : Matrix (Fin 3) (Fin 3) ℚ :=
  updM (updM (updM (updM 1 0 0 c) 0 1 (-s)) 1 0 s) 1 1 c

/-- Axis-0 rotation as built by the source: `eye(4)` with rows/cols 1,2 set. -/
def rot0Built (s c : ℚ) : Matrix (Fin 4) (Fin 4) ℚ :=
  updM (updM (updM (updM 1 1 1 c) 1 2 (-s)) 2 1 s) 2 2 c

/-- Axis-1 rotation as built by the source: `eye(4)` with rows/cols 0,2 set. -/
def rot1Built (s c : ℚ) : Matrix (Fin 4) (Fin 4) ℚ :=
  updM (updM (updM (updM 1 0 0 c) 0 2 s) 2 0 (-s)) 2 2 c

/-- Axis-2 rotation as built by the source: `eye(4)` with rows/cols 0,1 set. -/
def rot2Built (s c : ℚ) : Matrix (Fin 4) (Fin 4) ℚ :=
  updM (updM (updM (updM 1 0 0 c) 0 1 (-s)) 1 0 s) 1 1 c

/-- The single-axis homogeneous rotation about axis 0, written out. -/
def rotAxis0 (s c : ℚ) : Matrix (Fin 4) (Fin 4) ℚ :=
  !![1, 0, 0, 0; 0, c, -s, 0; 0, s, c, 0; 0, 0, 0, 1]

/-- The single-axis homogeneous rotation about axis 1, written out. -/
def rotAxis1 (s c : ℚ) : Matrix (Fin 4) (Fin 4) ℚ :=
  !![c, 0, s, 0; 0, 1, 0, 0; -s, 0, c, 0; 0, 0, 0, 1]

/-- The single-axis homogeneous rotation about axis 2, written out. -/
def rotAxis2 (s c : ℚ) : Matrix (Fin 4) (Fin 4) ℚ :=
  !![c, -s, 0, 0; s, c, 0, 0; 0, 0, 1, 0; 0, 0, 0, 1]

/-- `_create_rotate(2, radians, sin_func, cos_func)`: one angle builds the
3×3 matrix; an empty sequence raises. -/
def create_rotate2 (radians : List ℚ) (sinF cosF : ℚ → ℚ) :
    Except String (Matrix (Fin 3) (Fin 3) ℚ) :=
  match radians with
  | [] => .error "radians must be non empty."
  | a :: _ => .ok (rot2dBuilt (sinF a) (cosF a))

/-- `_create_rotate(3, radians, sin_func, cos_func)`: successively multiplies
the supplied single-axis matrices (`affine = affine @ _affine`), using at most
the first three angles; an empty sequence raises. -/
def create_rotate3 (radians : List ℚ) (sinF cosF : ℚ → ℚ) :
    Except String (Matrix (Fin 4) (Fin 4) ℚ) :=
  match radians with
  | [] => .error "radians must be non empty."
  | [a] => .ok (rot0Built (sinF a) (cosF a))
  | [a, b] => .ok (rot0Built (sinF a) (cosF a) * rot1Built (sinF b) (cosF b))
  | a :: b :: c :: _ =>
    .ok (rot0Built (sinF a) (cosF a) * rot1Built (sinF b) (cosF b) *
      rot2Built (sinF c) (cosF c))

/-- `ensure_tuple_size(xs, n, pad)`: truncate/pad to exactly `n` values. -/
def tupleSize (xs : List ℚ) (n : ℕ) (pad : ℚ) : List ℚ :=
  xs.take n ++ List.replicate (n - xs.length) pad

/-- `_create_shear(2, coefs)`: `eye(3)` with `[0,1] = coefs[0]`, `[1,0] = coefs[1]`. -/
def create_shear2 (coefs : List ℚ) : Matrix (Fin 3) (Fin 3) ℚ :=
  updM (updM 1 0 1 ((tupleSize coefs 2 0).getD 0 0)) 1 0 ((tupleSize coefs 2 0).getD 1 0)

/-- `_create_shear(3, coefs)`: `eye(4)` with the six off-diagonal entries
`(0,1),(0,2),(1,0),(1,2),(2,0),(2,1)` assigned in that order. -/
def create_shear3 (coefs : List ℚ) : Matrix (Fin 4) (Fin 4) ℚ :=
  let cs := tupleSize coefs 6 0
  updM (updM (updM (updM (updM (updM 1 0 1 (cs.getD 0 0)) 0 2 (cs.getD 1 0))
    1 0 (cs.getD 2 0)) 1 2 (cs.getD 3 0)) 2 0 (cs.getD 4 0)) 2 1 (cs.getD 5 0)

/-- `_create_scale(spatial_dims, scaling_factor)`: diagonal matrix of the
first `r` (padded with `1.0`) factors followed by a trailing `1`. -/
def create_scale (r : ℕ) (factors : List ℚ) : Matrix (Fin (r + 1)) (Fin (r + 1)) ℚ :=
  Matrix.diagonal fun i => (tupleSize factors r 1 ++ [1]).getD i 1

/-- `_create_translate(spatial_dims, shift)`: identity with
`affine[i, spatial_dims] = shift[i]` for `i < min(len(shift), spatial_dims)`. -/
def create_translate (r : ℕ) (shift : List ℚ) : Matrix (Fin (r + 1)) (Fin (r + 1)) ℚ :=
  fun i j =>
    if (j : ℕ) = r ∧ (i : ℕ) < min shift.length r then shift.getD i 0
    else (1 : Matrix (Fin (r + 1)) (Fin (r + 1)) ℚ) i j

/-- The last row of a homogeneous matrix. -/
def lastRow {n : ℕ} (M : Matrix (Fin (n + 1)) (Fin (n + 1)) ℚ) : Fin (n + 1) → ℚ :=
  M (Fin.last n)

/-- The homogeneous unit row `[0, …, 0, 1]`. -/
def unitRow {n : ℕ} : Fin (n + 1) → ℚ :=
  fun j => if j = Fin.last n then 1 else 0

/-! ### `map_classes_to_indices` (utils.py lines 360-419), with no image
mask and no `max_samples_per_class` subsampling (the settings the claim
fixes; the other parameters select independent code paths not modelled
here). -/

/-- `nonzero` of a flat boolean mask: ascending positions of `true`. -/
def nonzeroIdx (bs : List Bool) : List ℕ :=
  (List.range bs.length).filter fun i => bs.getD i false

/-- `map_classes_to_indices(label, num_classes)`: one-hot input (more than
one channel) iterates channels; single-channel argmax input compares the
flattened label to each class id and requires `num_classes`. -/
def map_classes_to_indices (label : List (List (List ℤ))) (numClasses : Option ℕ) :
    Except String (List (List ℕ)) :=
  let channels := label.length
  if channels = 1 then
    match numClasses with
    | none => .error "channels==1 indicates not using One-Hot format label, must provide num_classes."
    | some n =>
      let flatAll := label.flatMap fun ch => ch.flatMap id
      .ok ((List.range n).map fun c => nonzeroIdx (flatAll.map fun x => x = (c : ℤ)))
  else
    .ok ((List.range channels).map fun c =>
      nonzeroIdx (((label.getD c []).flatMap id).map fun x => x ≠ 0))

/-! ## Bridging lemmas -/

theorem ratFloor_eq_intFloor (x : ℚ) : x.floor = ⌊x⌋ := by
  rw [Rat.floor_def, Rat.floor_def']

theorem validEnd0_eq (l s : ℕ) (h : s ≤ 2 * l + 2) : validEnd0 l s = validEnd0N l s := by
  unfold validEnd0 validEnd0N toUInt16
  rw [ratFloor_eq_intFloor]
  have hx : (l : ℚ) + 1 - (s : ℚ) / 2 = ((2 * l + 2 - s : ℕ) : ℚ) / ((2 : ℕ) : ℚ) := by
    rw [Nat.cast_sub h]
    push_cast
    ring
  rw [hx, Rat.floor_natCast_div_natCast]
  omega

theorem clampAxis_eq (c : ℤ) (l s : ℕ) (h : s ≤ l) : clampAxis c l s = clampAxisN c l s := by
  unfold clampAxis clampAxisN validEnd1 validEnd1N
  rw [validEnd0_eq l s (by omega)]

theorem mem_zip_zipWith_min {l₁ l₂ : List ℕ} {p : ℕ × ℕ} :
    p ∈ l₁.zip (List.zipWith min l₁ l₂) → ∃ q ∈ l₁.zip l₂, p.1 = q.1 ∧ p.2 = min q.1 q.2 := by
  induction l₁ generalizing l₂ with
  | nil => simp [List.zip]
  | cons a as ih =>
    cases l₂ with
    | nil => simp
    | cons b bs =>
      intro hp
      rcases List.mem_cons.1 hp with h | h
      · exact ⟨(a, b), by simp, by simp [h], by simp [h]⟩
      · rcases ih h with ⟨q, hq, h1, h2⟩
        exact ⟨q, List.mem_cons_of_mem _ hq, h1, h2⟩

theorem cropCore_eq (centers : List ℤ) (pairs : List (ℕ × ℕ))
    (h : ∀ p ∈ pairs, p.2 ≤ p.1) : cropCore centers pairs = cropCoreN centers pairs := by
  unfold cropCore cropCoreN
  refine List.map_congr_left fun x hx => ?_
  exact clampAxis_eq x.1 x.2.1 x.2.2 (h x.2 (List.of_mem_zip hx).2)

theorem correct_crop_centers_exec_eq (c : List ℤ) (ss ls : List ℕ) (a : Bool) :
    correct_crop_centers c ss ls a = correct_crop_centersN c ss ls a := by
  unfold correct_crop_centers correct_crop_centersN
  split
  · split
    · refine congrArg Except.ok (cropCore_eq _ _ fun p hp => ?_)
      rcases mem_zip_zipWith_min hp with ⟨q, _, h1, h2⟩
      omega
    · rfl
  · next hA =>
    refine congrArg Except.ok (cropCore_eq _ _ fun p hp => ?_)
    simp only [List.any_eq_true, decide_eq_true_eq, not_exists, not_and, not_lt] at hA
    exact hA p hp

theorem clampAxisN_eq_spec (c : ℤ) (l s : ℕ) (h1 : s ≤ l)
    (h2 : l + 1 - (s + 1) / 2 < 65536) : clampAxisN c l s = clampAxisSpec c l s := by
  have hne1 : validStart s ≠ validEnd0N l s := by
    unfold validStart validEnd0N
    omega
  have hne2 : (validStart s : ℤ) ≠ validEndSpec l s := by
    unfold validStart validEndSpec
    omega
  unfold clampAxisN clampAxisSpec validEnd1N validEndSpec1
  rw [if_neg hne1, if_neg hne2]
  unfold validEnd0N validEndSpec validStart
  omega

theorem clampAxisN_mem (c : ℤ) (l s : ℕ) (h1 : 1 ≤ s) (h2 : s ≤ l) :
    0 ≤ clampAxisN c l s ∧ clampAxisN c l s ≤ (l : ℤ) - 1 := by
  unfold clampAxisN validEnd1N validEnd0N validStart
  split <;> omega

theorem clampAxisN_fits (c : ℤ) (l s : ℕ) (h2 : s ≤ l)
    (h3 : l + 1 - (s + 1) / 2 < 65536) :
    0 ≤ clampAxisN c l s - ((s / 2 : ℕ) : ℤ) ∧
    clampAxisN c l s - ((s / 2 : ℕ) : ℤ) + (s : ℤ) ≤ (l : ℤ) := by
  unfold clampAxisN validEnd1N validEnd0N validStart
  split <;> omega

theorem clampAxisN_idem (x : ℤ) (l s : ℕ) :
    clampAxisN (clampAxisN x l s) l s = clampAxisN x l s := by
  unfold clampAxisN
  omega

theorem cropCoreN_idem (c : List ℤ) (ps : List (ℕ × ℕ)) :
    cropCoreN (cropCoreN c ps) ps = cropCoreN c ps := by
  induction c generalizing ps with
  | nil => rfl
  | cons x xs ih =>
    cases ps with
    | nil => rfl
    | cons p pt =>
      show clampAxisN (clampAxisN x p.1 p.2) p.1 p.2 :: cropCoreN (cropCoreN xs pt) pt = _
      rw [clampAxisN_idem, ih]
      rfl

theorem cropCoreN_length (c : List ℤ) (ps : List (ℕ × ℕ)) :
    (cropCoreN c ps).length = min c.length ps.length := by
  unfold cropCoreN
  simp [List.length_zip]

theorem cropCoreN_getD (c : List ℤ) (ps : List (ℕ × ℕ)) (i : ℕ)
    (hi : i < (cropCoreN c ps).length) :
    (cropCoreN c ps).getD i 0 =
      clampAxisN (c.getD i 0) (ps.getD i (0, 0)).1 (ps.getD i (0, 0)).2 := by
  induction c generalizing ps i with
  | nil => simp [cropCoreN] at hi
  | cons x xs ih =>
    cases ps with
    | nil => simp [cropCoreN] at hi
    | cons p pt =>
      cases i with
      | zero => rfl
      | succ n =>
        have hn : n < (cropCoreN xs pt).length := by
          simpa [cropCoreN, List.length_zip] using hi
        show (clampAxisN x p.1 p.2 :: cropCoreN xs pt).getD (n + 1) 0 = _
        simpa using ih pt n hn

theorem zip_getD (l₁ l₂ : List ℕ) (i : ℕ) (h1 : i < l₁.length) (h2 : i < l₂.length) :
    (l₁.zip l₂).getD i (0, 0) = (l₁.getD i 0, l₂.getD i 1) := by
  induction l₁ generalizing l₂ i with
  | nil => simp at h1
  | cons a as ih =>
    cases l₂ with
    | nil => simp at h2
    | cons b bs =>
      cases i with
      | zero => rfl
      | succ n => simpa using ih bs n (by simpa using h1) (by simpa using h2)

theorem zip_zipWith_min_getD (l₁ l₂ : List ℕ) (i : ℕ) (h1 : i < l₁.length)
    (h2 : i < l₂.length) :
    (l₁.zip (List.zipWith min l₁ l₂)).getD i (0, 0) =
      (l₁.getD i 0, min (l₁.getD i 0) (l₂.getD i 1)) := by
  induction l₁ generalizing l₂ i with
  | nil => simp at h1
  | cons a as ih =>
    cases l₂ with
    | nil => simp at h2
    | cons b bs =>
      cases i with
      | zero => rfl
      | succ n => simpa using ih bs n (by simpa using h1) (by simpa using h2)

theorem getD_mem {α : Type} (l : List α) (i : ℕ) (d : α) (h : i < l.length) :
    l.getD i d ∈ l := by
  rw [List.getD_eq_getElem l d h]
  exact List.getElem_mem h

/-! ## Claim C1 -/

/-- C1, counterexample: with `label_spatial_shape = [70000]` and
`spatial_size = [2]` the upper bound `70001 - 1 = 70000` is stored as the
uint16 value `4464`, so the requested center `69999` is clamped to `4463`,
not to the value `69999` the claimed integer-arithmetic range would give. -/
theorem correct_crop_centers_uint16_counterexample :
    correct_crop_centers [69999] [2] [70000] true = .ok [4463] ∧
    correct_crop_centers_spec [69999] [2] [70000] true = .ok [69999] ∧
    correct_crop_centers [69999] [2] [70000] true ≠
      correct_crop_centers_spec [69999] [2] [70000] true := by
  refine ⟨?_, by decide, ?_⟩ <;> rw [correct_crop_centers_exec_eq] <;> decide

/-- C1 (amended): on every axis whose (post-adjustment) bound
`label + 1 - ceil(patch/2)` is below `2^16` — so the `np.uint16` cast does
not wrap — `correct_crop_centers` computes exactly the claimed valid range
`[floor(patch/2), label + 1 - ceil(patch/2))` with the collision increment,
and clamps the requested center into `[valid_start, valid_end - 1]`. -/
theorem correct_crop_centers_matches_spec (c : List ℤ) (ss ls : List ℕ) (a : Bool)
    (h : ∀ p ∈ ls.zip ss, p.1 + 1 - (min p.1 p.2 + 1) / 2 < 65536) :
    correct_crop_centers c ss ls a = correct_crop_centers_spec c ss ls a := by
  rw [correct_crop_centers_exec_eq]
  unfold correct_crop_centersN correct_crop_centers_spec cropCoreN
  split
  · split
    · refine congrArg Except.ok (List.map_congr_left fun x hx => ?_)
      have hp := (List.of_mem_zip hx).2
      rcases mem_zip_zipWith_min hp with ⟨q, hq, h1, h2⟩
      have hb := h q hq
      exact clampAxisN_eq_spec x.1 x.2.1 x.2.2 (by omega) (by omega)
    · rfl
  · next hA =>
    refine congrArg Except.ok (List.map_congr_left fun x hx => ?_)
    have hp := (List.of_mem_zip hx).2
    simp only [List.any_eq_true, decide_eq_true_eq, not_exists, not_and, not_lt] at hA
    have hle := hA _ hp
    have hb := h x.2 hp
    exact clampAxisN_eq_spec x.1 x.2.1 x.2.2 hle (by omega)

/-- C1 witness. -/
theorem correct_crop_centers_matches_spec_witness :
    correct_crop_centers [0] [4] [10] false = correct_crop_centers_spec [0] [4] [10] false :=
  correct_crop_centers_matches_spec [0] [4] [10] false (by decide)

/-! ## Claim C2 -/

/-- C2, counterexample: `label = [200000]`, `patch = [140000]` is accepted
(patch fits), but the uint16-wrapped bound clamps the center to `64464`,
and a patch of size `140000` centered there starts at `-5536 < 0`: it does
not lie inside the volume. -/
theorem correct_crop_centers_patch_fit_counterexample :
    correct_crop_centers [0] [140000] [200000] false = .ok [64464] ∧
    (140000 : ℕ) ≤ 200000 ∧ (64464 : ℤ) - ((140000 / 2 : ℕ) : ℤ) < 0 := by
  refine ⟨?_, by decide, by decide⟩
  rw [correct_crop_centers_exec_eq]
  decide

/-- C2 (amended): for positive patch and label sizes, every output
coordinate of `correct_crop_centers` lies in `[0, label_i - 1]`; and on
every axis with `patch_i ≤ label_i` whose bound `label_i + 1 - ceil(patch_i/2)`
stays below `2^16` (no uint16 wrap), the patch of size `patch_i` centered at
the output coordinate lies entirely inside `[0, label_i)`. -/
theorem correct_crop_centers_output_valid (c : List ℤ) (ss ls : List ℕ) (a : Bool)
    (out : List ℤ) (hl : ∀ l ∈ ls, 1 ≤ l) (hs : ∀ s ∈ ss, 1 ≤ s)
    (h : correct_crop_centers c ss ls a = .ok out) (i : ℕ) (hi : i < out.length) :
    (0 ≤ out.getD i 0 ∧ out.getD i 0 ≤ (ls.getD i 0 : ℤ) - 1) ∧
    (ss.getD i 1 ≤ ls.getD i 0 → ls.getD i 0 + 1 - (ss.getD i 1 + 1) / 2 < 65536 →
      0 ≤ out.getD i 0 - ((ss.getD i 1 / 2 : ℕ) : ℤ) ∧
      out.getD i 0 - ((ss.getD i 1 / 2 : ℕ) : ℤ) + (ss.getD i 1 : ℤ) ≤ (ls.getD i 0 : ℤ)) := by
  rw [correct_crop_centers_exec_eq] at h
  unfold correct_crop_centersN at h
  split at h
  · split at h
    · injection h with h'
      subst h'
      have hlen := cropCoreN_length c (ls.zip (List.zipWith min ls ss))
      have hil : i < ls.length := by
        rw [hlen] at hi
        simp [List.length_zip] at hi
        omega
      have his : i < ss.length := by
        rw [hlen] at hi
        simp [List.length_zip] at hi
        omega
      rw [cropCoreN_getD _ _ _ hi, zip_zipWith_min_getD ls ss i hil (by simpa)]
      have h1 : 1 ≤ ls.getD i 0 := hl _ (getD_mem ls i 0 hil)
      have h2 : 1 ≤ ss.getD i 1 := hs _ (getD_mem ss i 1 his)
      constructor
      · exact clampAxisN_mem _ _ _ (by omega) (by omega)
      · intro hfit hwrap
        have hmin : min (ls.getD i 0) (ss.getD i 1) = ss.getD i 1 := by omega
        rw [hmin]
        exact clampAxisN_fits _ _ _ hfit hwrap
    · exact Except.noConfusion h
  · next hA =>
    injection h with h'
    subst h'
    have hlen := cropCoreN_length c (ls.zip ss)
    have hil : i < ls.length := by
      rw [hlen] at hi
      simp [List.length_zip] at hi
      omega
    have his : i < ss.length := by
      rw [hlen] at hi
      simp [List.length_zip] at hi
      omega
    rw [cropCoreN_getD _ _ _ hi, zip_getD ls ss i hil his]
    simp only [List.any_eq_true, decide_eq_true_eq, not_exists, not_and, not_lt] at hA
    have hle : ss.getD i 1 ≤ ls.getD i 0 := by
      have : (ls.getD i 0, ss.getD i 1) ∈ ls.zip ss := by
        rw [← zip_getD ls ss i hil his]
        exact getD_mem _ i (0, 0) (by simp [List.length_zip]; omega)
      exact hA _ this
    have h2 : 1 ≤ ss.getD i 1 := hs _ (getD_mem ss i 1 his)
    constructor
    · exact clampAxisN_mem _ _ _ (by omega) (by omega)
    · intro _ hwrap
      exact clampAxisN_fits _ _ _ hle hwrap

/-- C2 witness. -/
theorem correct_crop_centers_output_valid_witness :
    (0 ≤ (([2] : List ℤ).getD 0 0) ∧
      ([2] : List ℤ).getD 0 0 ≤ ((([10] : List ℕ).getD 0 0 : ℕ) : ℤ) - 1) ∧
    (0 ≤ ([2] : List ℤ).getD 0 0 - ((([4] : List ℕ).getD 0 1 / 2 : ℕ) : ℤ) ∧
      ([2] : List ℤ).getD 0 0 - ((([4] : List ℕ).getD 0 1 / 2 : ℕ) : ℤ) +
        (([4] : List ℕ).getD 0 1 : ℤ) ≤ ((([10] : List ℕ).getD 0 0 : ℕ) : ℤ)) := by
  have H := correct_crop_centers_output_valid [0] [4] [10] false [2] (by decide) (by decide)
    (by rw [correct_crop_centers_exec_eq]; decide) 0 (by decide)
  exact ⟨H.1, H.2 (by decide) (by decide)⟩

/-! ## Claim C8 -/

/-- C8: `correct_crop_centers` is idempotent — applied to its own output
with the same `spatial_size`, `label_spatial_shape` and `allow_smaller`, it
returns that output unchanged. -/
theorem correct_crop_centers_idempotent (c : List ℤ) (ss ls : List ℕ) (a : Bool)
    (out : List ℤ) (h : correct_crop_centers c ss ls a = .ok out) :
    correct_crop_centers out ss ls a = .ok out := by
  rw [correct_crop_centers_exec_eq] at h ⊢
  unfold correct_crop_centersN at h ⊢
  split at h
  · next hA =>
    rw [if_pos hA]
    split at h
    · next ha =>
      rw [if_pos ha]
      injection h with h'
      subst h'
      exact congrArg Except.ok (cropCoreN_idem _ _)
    · exact Except.noConfusion h
  · next hA =>
    rw [if_neg hA]
    injection h with h'
    subst h'
    exact congrArg Except.ok (cropCoreN_idem _ _)

/-- C8 witness. -/
theorem correct_crop_centers_idempotent_witness :
    correct_crop_centers [2] [4] [10] false = .ok [2] :=
  correct_crop_centers_idempotent [0] [4] [10] false [2]
    (by rw [correct_crop_centers_exec_eq]; decide)

/-! ## Claim C10 -/

/-- C10: the per-axis upper bound of `correct_crop_centers` is the float
value `label + 1 - patch/2` truncated and reduced modulo `2^16` — i.e. it
equals `floor(label + 1 - patch/2) % 65536`; in particular once that
quantity reaches `65536` the stored clamping bound wraps around and is
strictly smaller than the exact bound. -/
theorem validEnd0_uint16 (l p : ℕ) (h : p ≤ l) :
    validEnd0 l p = (l + 1 - (p + 1) / 2) % 65536 ∧
    (65536 ≤ l + 1 - (p + 1) / 2 → validEnd0 l p < l + 1 - (p + 1) / 2) := by
  rw [validEnd0_eq l p (by omega)]
  unfold validEnd0N
  omega

/-- C10 witness. -/
theorem validEnd0_uint16_witness :
    validEnd0 70000 2 = (70000 + 1 - (2 + 1) / 2) % 65536 ∧
    (65536 ≤ 70000 + 1 - (2 + 1) / 2 → validEnd0 70000 2 < 70000 + 1 - (2 + 1) / 2) :=
  validEnd0_uint16 70000 2 (by decide)

/-! ## Claim C3 -/

theorem unravel_index_length (i : ℕ) (ds : List ℕ) : (unravel_index i ds).length = ds.length := by
  induction ds generalizing i with
  | nil => rfl
  | cons d dt ih => simp [unravel_index, ih]

theorem prod_pos_of_all_pos {ds : List ℕ} (h : ∀ d ∈ ds, 1 ≤ d) : 1 ≤ ds.prod := by
  induction ds with
  | nil => simp
  | cons d dt ih =>
    rw [List.prod_cons]
    have h1 := h d (by simp)
    have h2 := ih fun x hx => h x (List.mem_cons_of_mem _ hx)
    exact Nat.one_le_iff_ne_zero.2 (Nat.mul_ne_zero (by omega) (by omega))

theorem unravel_index_lt (ds : List ℕ) (i j : ℕ) (hall : ∀ d ∈ ds, 1 ≤ d)
    (hi : i < ds.prod) (hj : j < ds.length) :
    (unravel_index i ds).getD j 0 < ds.getD j 1 := by
  induction ds generalizing i j with
  | nil => simp at hj
  | cons d dt ih =>
    cases j with
    | zero =>
      show i / dt.prod < d
      have hp : 1 ≤ dt.prod := prod_pos_of_all_pos fun x hx => hall x (List.mem_cons_of_mem _ hx)
      rw [List.prod_cons, Nat.mul_comm d dt.prod] at hi
      exact Nat.div_lt_of_lt_mul hi
    | succ n =>
      show (unravel_index (i % dt.prod) dt).getD n 0 < dt.getD n 1
      have hp : 1 ≤ dt.prod := prod_pos_of_all_pos fun x hx => hall x (List.mem_cons_of_mem _ hx)
      exact ih (i % dt.prod) n (fun x hx => hall x (List.mem_cons_of_mem _ hx))
        (Nat.mod_lt _ (by omega)) (by simpa using hj)

theorem windowSize_pos (a b : ℕ) (_hb : 1 ≤ b) : 1 ≤ windowSize a b := by
  unfold windowSize
  split <;> omega

theorem zipWith_windowSize_pos (l₁ l₂ : List ℕ) (h : ∀ m ∈ l₂, 1 ≤ m) :
    ∀ x ∈ List.zipWith windowSize l₁ l₂, 1 ≤ x := by
  induction l₁ generalizing l₂ with
  | nil => simp
  | cons a as ih =>
    cases l₂ with
    | nil => simp
    | cons b bs =>
      intro x hx
      rcases List.mem_cons.1 hx with h1 | h1
      · subst h1
        exact windowSize_pos a b (h b (by simp))
      · exact ih bs (fun m hm => h m (List.mem_cons_of_mem _ hm)) x h1

theorem zipWith_getD_nat (f : ℕ → ℕ → ℕ) (l₁ l₂ : List ℕ) (i : ℕ) (d d₁ d₂ : ℕ)
    (h1 : i < l₁.length) (h2 : i < l₂.length) :
    (List.zipWith f l₁ l₂).getD i d = f (l₁.getD i d₁) (l₂.getD i d₂) := by
  induction l₁ generalizing l₂ i with
  | nil => simp at h1
  | cons a as ih =>
    cases l₂ with
    | nil => simp at h2
    | cons b bs =>
      cases i with
      | zero => rfl
      | succ n => simpa using ih bs n (by simpa using h1) (by simpa using h2)

theorem map_getD {α β : Type} (f : α → β) (l : List α) (i : ℕ) (d : α) (d' : β)
    (h : i < l.length) : (l.map f).getD i d' = f (l.getD i d) := by
  rw [List.getD_eq_getElem _ _ (by simpa using h), List.getElem_map,
    List.getD_eq_getElem _ _ h]

theorem windowStart_eq_diff (a b : ℕ) : windowStart a b = min a b / 2 := by
  unfold windowStart
  split <;> omega

/-- C3: when the cumulative total of the (windowed, shifted) weight map is
zero or negative — in particular for an all-zero weight map —
`weighted_patch_samples` does not fail: it takes the uniform-sampling
fallback, returns exactly `n_samples` coordinates (one per `randint` draw,
ignoring the `random()` stream), each being the row-major unravelling of its
draw over the valid-window shape plus the per-axis offset
`min(patch, dim) // 2`, and hence each coordinate lies inside the valid
window of the full volume. -/
theorem weighted_patch_samples_degenerate (winSize imgSize : List ℕ) (w : List ℚ)
    (ud : List ℕ) (rd : List ℚ) (n : ℕ)
    (hdim : winSize.length = imgSize.length)
    (hm : ∀ m ∈ imgSize, 1 ≤ m)
    (htot : cumTotal winSize imgSize w = 0 ∨ cumTotal winSize imgSize w < 0)
    (hn : ud.length = n)
    (hud : ∀ u ∈ ud, u < (List.zipWith windowSize winSize imgSize).prod) :
    (weighted_patch_samples winSize imgSize w ud rd).length = n ∧
    (∀ i, i < n →
      (weighted_patch_samples winSize imgSize w ud rd).getD i [] =
        List.zipWith (· + ·)
          (unravel_index (ud.getD i 0) (List.zipWith windowSize winSize imgSize))
          (List.zipWith (fun a b => min a b / 2) winSize imgSize)) ∧
    (∀ p ∈ weighted_patch_samples winSize imgSize w ud rd,
      p.length = imgSize.length ∧
      ∀ j, j < p.length →
        windowStart (winSize.getD j 0) (imgSize.getD j 1) ≤ p.getD j 0 ∧
        p.getD j 0 < windowStart (winSize.getD j 0) (imgSize.getD j 1) +
          windowSize (winSize.getD j 0) (imgSize.getD j 1)) := by
  unfold cumTotal at htot
  have hbody : weighted_patch_samples winSize imgSize w ud rd =
      ud.map fun i => List.zipWith (· + ·)
        (unravel_index i (List.zipWith windowSize winSize imgSize))
        (List.zipWith (fun a b => min a b / 2) winSize imgSize) := by
    simp only [weighted_patch_samples]
    rw [if_pos htot]
  refine ⟨by rw [hbody]; simpa using hn, fun i hi => ?_, fun p hp => ?_⟩
  · rw [hbody]
    exact map_getD _ ud i 0 [] (by omega)
  · rw [hbody] at hp
    rcases List.mem_map.1 hp with ⟨u, hu, rfl⟩
    have hvpos := zipWith_windowSize_pos winSize imgSize hm
    have hvlen : (List.zipWith windowSize winSize imgSize).length = imgSize.length := by
      simp [List.length_zipWith, hdim]
    have hulen : (unravel_index u (List.zipWith windowSize winSize imgSize)).length =
        imgSize.length := by
      rw [unravel_index_length, hvlen]
    have hplen : (List.zipWith (· + ·)
        (unravel_index u (List.zipWith windowSize winSize imgSize))
        (List.zipWith (fun a b => min a b / 2) winSize imgSize)).length = imgSize.length := by
      simp [List.length_zipWith, hulen, hdim]
    refine ⟨hplen, fun j hj => ?_⟩
    rw [hplen] at hj
    have hjw : j < winSize.length := by omega
    have hji : j < imgSize.length := hj
    have hps : (List.zipWith (· + ·)
        (unravel_index u (List.zipWith windowSize winSize imgSize))
        (List.zipWith (fun a b => min a b / 2) winSize imgSize)).getD j 0 =
        (unravel_index u (List.zipWith windowSize winSize imgSize)).getD j 0 +
          (List.zipWith (fun a b => min a b / 2) winSize imgSize).getD j 0 := by
      exact zipWith_getD_nat _ _ _ j 0 0 0 (by omega) (by simp [List.length_zipWith]; omega)
    have hdiff : (List.zipWith (fun a b => min a b / 2) winSize imgSize).getD j 0 =
        min (winSize.getD j 0) (imgSize.getD j 1) / 2 :=
      zipWith_getD_nat _ _ _ j 0 0 1 hjw hji
    have hu_lt : (unravel_index u (List.zipWith windowSize winSize imgSize)).getD j 0 <
        (List.zipWith windowSize winSize imgSize).getD j 1 :=
      unravel_index_lt _ u j hvpos (hud u hu) (by omega)
    have hvj : (List.zipWith windowSize winSize imgSize).getD j 1 =
        windowSize (winSize.getD j 0) (imgSize.getD j 1) :=
      zipWith_getD_nat _ _ _ j 1 0 1 hjw hji
    rw [hps, hdiff, ← windowStart_eq_diff]
    rw [hvj] at hu_lt
    omega

/-- C3 witness: an all-zero weight map on a one-axis volume of size 4 with
patch size 2. -/
theorem weighted_patch_samples_degenerate_witness :
    (weighted_patch_samples [2] [4] [0, 0, 0, 0] [1] []).length = 1 ∧
    (weighted_patch_samples [2] [4] [0, 0, 0, 0] [1] []).getD 0 [] =
      List.zipWith (· + ·) (unravel_index 1 (List.zipWith windowSize [2] [4]))
        (List.zipWith (fun a b => min a b / 2) [2] [4]) := by
  have htot : cumTotal [2] [4] [0, 0, 0, 0] = 0 ∨ cumTotal [2] [4] [0, 0, 0, 0] < 0 := by
    left
    simp [cumTotal, shiftedWeights, windowedWeights, gridIndices, cumsum, cumsum.go,
      listMin, ravelIdx, windowSize, windowStart]
  have H := weighted_patch_samples_degenerate [2] [4] [0, 0, 0, 0] [1] [] 1 (by decide)
    (by decide) htot rfl (by decide)
  exact ⟨H.1, H.2.1 0 (by decide)⟩

/-! ## Claim C4 -/

theorem getD_mem_or_eq {α : Type} (l : List α) (i : ℕ) (d : α) :
    l.getD i d ∈ l ∨ l.getD i d = d := by
  by_cases h : i < l.length
  · exact Or.inl (getD_mem l i d h)
  · exact Or.inr (List.getD_eq_default _ _ (by omega))

theorem exceptMapList_congr {α β : Type} (l : List α) (f g : α → Except String β)
    (h : ∀ x ∈ l, f x = g x) : exceptMapList l f = exceptMapList l g := by
  induction l with
  | nil => rfl
  | cons a as ih =>
    unfold exceptMapList
    rw [h a (by simp), ih fun x hx => h x (List.mem_cons_of_mem _ hx)]

theorem exceptMapList_isOk {α β : Type} (l : List α) (f : α → Except String β)
    (h : ∀ x ∈ l, ∃ y, f x = .ok y) : ∃ ys, exceptMapList l f = .ok ys := by
  induction l with
  | nil => exact ⟨[], rfl⟩
  | cons a as ih =>
    rcases h a (by simp) with ⟨b, hb⟩
    rcases ih (fun x hx => h x (List.mem_cons_of_mem _ hx)) with ⟨bs, hbs⟩
    exact ⟨b :: bs, by unfold exceptMapList; rw [hb, hbs]⟩

theorem correct_crop_centers_isOk (c : List ℤ) (ss ls : List ℕ) (a : Bool)
    (h : a = true ∨ ∀ p ∈ ls.zip ss, p.2 ≤ p.1) :
    ∃ y, correct_crop_centers c ss ls a = .ok y := by
  unfold correct_crop_centers
  by_cases hA : ((ls.zip ss).any fun p => decide (p.1 < p.2)) = true
  · rcases h with rfl | h
    · rw [if_pos hA]
      exact ⟨_, by rw [if_pos rfl]⟩
    · exfalso
      simp only [List.any_eq_true, decide_eq_true_eq] at hA
      rcases hA with ⟨p, hp, hlt⟩
      exact absurd (h p hp) (by omega)
  · rw [if_neg hA]
    exact ⟨_, rfl⟩

/-- C4, counterexample: with a non-empty foreground, an empty background, and
an ROI larger than the image with `allow_smaller = False`, the function
raises (from the clipping step), although not both index sets are empty — so
it does not fail *exactly* when both sets are empty. -/
theorem generate_pos_neg_failure_counterexample :
    generate_pos_neg_label_crop_centers [5] 1 0 [3] [0] [] [(0, 0)] false =
      .error "The size of the proposed random crop ROI is larger than the image size" ∧
    ([0] : List ℕ).length ≠ 0 := by
  constructor
  · decide
  · decide

/-- C4 (amended): the empty-index check of
`generate_pos_neg_label_crop_centers` fails exactly when both the foreground
and the background index sets are empty; when they are not both empty and the
clipping step cannot raise (`allow_smaller`, or every patch dim fits), the
call succeeds; and when exactly one set is empty the forced `pos_ratio`
(0 for empty foreground, 1 for empty background) makes every one of the
`num_samples` draws select the non-empty set, with the warning flag set. -/
theorem generate_pos_neg_label_crop_centers_empty_policy
    (ss : List ℕ) (n : ℕ) (pr : ℚ) (ls : List ℕ) (fg bg : List ℕ)
    (draws : List (ℚ × ℕ)) (a : Bool) :
    (fg.length = 0 → bg.length = 0 →
      generate_pos_neg_label_crop_centers ss n pr ls fg bg draws a =
        .error "No sampling location available.") ∧
    (¬(fg.length = 0 ∧ bg.length = 0) →
      (a = true ∨ ∀ p ∈ ls.zip ss, p.2 ≤ p.1) →
      ∃ y, generate_pos_neg_label_crop_centers ss n pr ls fg bg draws a = .ok y) ∧
    (fg.length = 0 → bg.length ≠ 0 → (∀ d ∈ draws, 0 ≤ d.1) →
      generate_pos_neg_label_crop_centers ss n pr ls fg bg draws a =
        Except.map (fun cs => (cs, true)) (samplesFromSet bg ss ls n draws a)) ∧
    (bg.length = 0 → fg.length ≠ 0 → (∀ d ∈ draws, d.1 < 1) →
      generate_pos_neg_label_crop_centers ss n pr ls fg bg draws a =
        Except.map (fun cs => (cs, true)) (samplesFromSet fg ss ls n draws a)) := by
  refine ⟨fun h1 h2 => ?_, fun hne hsafe => ?_, fun h1 h2 hr => ?_, fun h2 h1 hr => ?_⟩
  · unfold generate_pos_neg_label_crop_centers
    rw [if_pos ⟨h1, h2⟩]
  · simp only [generate_pos_neg_label_crop_centers]
    rw [if_neg hne]
    obtain ⟨ys, hys⟩ := exceptMapList_isOk (List.range n) _ fun i _ =>
      correct_crop_centers_isOk _ ss ls a hsafe
    rw [hys]
    exact ⟨_, rfl⟩
  · simp only [generate_pos_neg_label_crop_centers]
    rw [if_neg fun hc => h2 hc.2]
    have hbody : exceptMapList (List.range n)
        (fun i =>
          correct_crop_centers
            ((unravel_index
              ((if (draws.getD i (0, 0)).1 <
                  (if fg.length = 0 ∨ bg.length = 0 then
                    (if fg.length = 0 then (0 : ℚ) else 1) else pr) then fg
                else bg).getD (draws.getD i (0, 0)).2 0) ls).map (· : ℕ → ℤ))
            ss ls a) = samplesFromSet bg ss ls n draws a := by
      refine exceptMapList_congr _ _ _ fun i _ => ?_
      have hd : 0 ≤ (draws.getD i (0, 0)).1 := by
        rcases getD_mem_or_eq draws i (0, 0) with hmem | heq
        · exact hr _ hmem
        · rw [heq]
      rw [if_pos (Or.inl h1), if_pos h1, if_neg (not_lt.2 hd)]
    rw [hbody]
    cases samplesFromSet bg ss ls n draws a with
    | error e => rfl
    | ok cs =>
      show Except.ok (cs, decide (fg.length = 0 ∨ bg.length = 0)) = _
      rw [decide_eq_true (Or.inl h1)]
      rfl
  · simp only [generate_pos_neg_label_crop_centers]
    rw [if_neg fun hc => h1 hc.1]
    have hbody : exceptMapList (List.range n)
        (fun i =>
          correct_crop_centers
            ((unravel_index
              ((if (draws.getD i (0, 0)).1 <
                  (if fg.length = 0 ∨ bg.length = 0 then
                    (if fg.length = 0 then (0 : ℚ) else 1) else pr) then fg
                else bg).getD (draws.getD i (0, 0)).2 0) ls).map (· : ℕ → ℤ))
            ss ls a) = samplesFromSet fg ss ls n draws a := by
      refine exceptMapList_congr _ _ _ fun i _ => ?_
      have hd : (draws.getD i (0, 0)).1 < 1 := by
        rcases getD_mem_or_eq draws i (0, 0) with hmem | heq
        · exact hr _ hmem
        · rw [heq]
          norm_num
      rw [if_pos (Or.inr h2), if_neg h1, if_pos hd]
    rw [hbody]
    cases samplesFromSet fg ss ls n draws a with
    | error e => rfl
    | ok cs =>
      show Except.ok (cs, decide (fg.length = 0 ∨ bg.length = 0)) = _
      rw [decide_eq_true (Or.inr h2)]
      rfl

/-- C4 witness. -/
theorem generate_pos_neg_label_crop_centers_empty_policy_witness :
    generate_pos_neg_label_crop_centers [2] 1 0 [4] [] [] [(0, 0)] true =
      .error "No sampling location available." ∧
    generate_pos_neg_label_crop_centers [2] 1 0 [4] [] [1] [(0, 0)] true =
      Except.map (fun cs => (cs, true)) (samplesFromSet [1] [2] [4] 1 [(0, 0)] true) ∧
    generate_pos_neg_label_crop_centers [2] 1 0 [4] [1] [] [(0, 0)] true =
      Except.map (fun cs => (cs, true)) (samplesFromSet [1] [2] [4] 1 [(0, 0)] true) := by
  refine ⟨?_, ?_, ?_⟩
  · exact (generate_pos_neg_label_crop_centers_empty_policy [2] 1 0 [4] [] [] [(0, 0)] true).1
      rfl rfl
  · exact (generate_pos_neg_label_crop_centers_empty_policy [2] 1 0 [4] [] [1] [(0, 0)] true).2.2.1
      rfl (by decide) (fun d hd => by rcases List.mem_singleton.1 hd with rfl; exact le_refl 0)
  · exact (generate_pos_neg_label_crop_centers_empty_policy [2] 1 0 [4] [1] [] [(0, 0)] true).2.2.2
      rfl (by decide) (fun d hd => by rcases List.mem_singleton.1 hd with rfl; decide)

/-! ## Claim C5 -/

/-- C5: `generate_spatial_bounding_box` with the default strictly-positive
selector returns the all-zero sentinel pair on an all-zero volume, and on a
2-D volume whose only foreground voxel sits at spatial position `(3, 4)`
with margin 0 it returns start `[3, 4]` and end `[4, 5]` (end exclusive). -/
theorem generate_spatial_bounding_box_cases :
    (∀ (img : List (List (List ℚ))) (m0 m1 : ℕ) (al : Bool),
      (∀ ch ∈ img, ∀ row ∈ ch, ∀ x ∈ row, x = 0) →
      generate_spatial_bounding_box img m0 m1 al = ([0, 0], [0, 0])) ∧
    generate_spatial_bounding_box
      [[[0, 0, 0, 0, 0, 0], [0, 0, 0, 0, 0, 0], [0, 0, 0, 0, 0, 0],
        [0, 0, 0, 0, 1, 0], [0, 0, 0, 0, 0, 0]]] 0 0 true = ([3, 4], [4, 5]) := by
  constructor
  · intro img m0 m1 al h
    have hcell : ∀ i j, (img.any fun ch => is_positive ((ch.getD i []).getD j 0)) = false := by
      intro i j
      rw [List.any_eq_false]
      intro ch hch
      have hx : (ch.getD i []).getD j 0 = 0 := by
        rcases getD_mem_or_eq ch i [] with hrow | hrow
        · rcases getD_mem_or_eq (ch.getD i []) j 0 with hx | hx
          · exact h ch hch _ hrow _ hx
          · exact hx
        · rw [hrow]
          simp
      rw [hx]
      simp [is_positive]
    simp only [generate_spatial_bounding_box]
    rw [if_pos]
    left
    intro hany
    rcases List.any_eq_true.1 hany with ⟨b, hb, hbtrue⟩
    rcases List.mem_map.1 hb with ⟨i, _, rfl⟩
    rcases List.any_eq_true.1 hbtrue with ⟨j, _, hj⟩
    rw [hcell i j] at hj
    exact Bool.false_ne_true hj
  · decide

/-- C5 witness. -/
theorem generate_spatial_bounding_box_witness :
    generate_spatial_bounding_box [[[0]]] 0 0 true = ([0, 0], [0, 0]) :=
  generate_spatial_bounding_box_cases.1 [[[0]]] 0 0 true (by decide)

/-! ## Claim C7 -/

/-- C7: on the single-channel argmax label `[[[0,1,2],[2,0,1],[1,2,0]]]` with
`num_classes = 3`, `map_classes_to_indices` returns exactly the three
row-major index sets `[0,4,8]`, `[1,5,6]`, `[2,3,7]`, each in ascending
order. -/
theorem map_classes_to_indices_example :
    map_classes_to_indices [[[0, 1, 2], [2, 0, 1], [1, 2, 0]]] (some 3) =
      .ok [[0, 4, 8], [1, 5, 6], [2, 3, 7]] := by
  decide

/-! ## Claims C6 and C9: affine constructors -/

theorem rot2dBuilt_eq (s c : ℚ) :
    rot2dBuilt s c = !![c, -s, 0; s, c, 0; 0, 0, 1] := by
  ext i j
  fin_cases i <;> fin_cases j <;>
    simp [rot2dBuilt, updM, Matrix.one_apply, Matrix.vecHead, Matrix.vecTail]

theorem rot0Built_eq (s c : ℚ) : rot0Built s c = rotAxis0 s c := by
  ext i j
  fin_cases i <;> fin_cases j <;>
    simp [rot0Built, updM, rotAxis0, Matrix.one_apply, Matrix.vecHead, Matrix.vecTail]

theorem rot1Built_eq (s c : ℚ) : rot1Built s c = rotAxis1 s c := by
  ext i j
  fin_cases i <;> fin_cases j <;>
    simp [rot1Built, updM, rotAxis1, Matrix.one_apply, Matrix.vecHead, Matrix.vecTail]

theorem rot2Built_eq (s c : ℚ) : rot2Built s c = rotAxis2 s c := by
  ext i j
  fin_cases i <;> fin_cases j <;>
    simp [rot2Built, updM, rotAxis2, Matrix.one_apply, Matrix.vecHead, Matrix.vecTail]

/-- C6: `_create_rotate` at rank 3 returns the product
`R0(radians[0]) @ R1(radians[1]) @ R2(radians[2])` of the single-axis 4×4
homogeneous rotations, multiplied first→second→third; with fewer angles the
product runs over only the supplied axes in the same order; an empty
`radians` raises. -/
theorem create_rotate3_structure (sinF cosF : ℚ → ℚ) (a b c : ℚ) :
    create_rotate3 [a, b, c] sinF cosF =
      .ok (rotAxis0 (sinF a) (cosF a) * rotAxis1 (sinF b) (cosF b) *
        rotAxis2 (sinF c) (cosF c)) ∧
    create_rotate3 [a, b] sinF cosF =
      .ok (rotAxis0 (sinF a) (cosF a) * rotAxis1 (sinF b) (cosF b)) ∧
    create_rotate3 [a] sinF cosF = .ok (rotAxis0 (sinF a) (cosF a)) ∧
    create_rotate3 [] sinF cosF = .error "radians must be non empty." := by
  refine ⟨?_, ?_, ?_, rfl⟩ <;>
    simp [create_rotate3, rot0Built_eq, rot1Built_eq, rot2Built_eq]

theorem lastRow_mul {n : ℕ} (A B : Matrix (Fin (n + 1)) (Fin (n + 1)) ℚ)
    (hA : lastRow A = unitRow) : lastRow (A * B) = lastRow B := by
  funext j
  have hAk : ∀ k, A (Fin.last n) k = if k = Fin.last n then 1 else 0 := fun k => by
    have := congrFun hA k
    simpa [lastRow, unitRow] using this
  simp only [lastRow, Matrix.mul_apply, hAk, ite_mul, one_mul, zero_mul]
  simp

theorem lastRow_rotAxis0 (s c : ℚ) : lastRow (rotAxis0 s c) = unitRow := by
  funext j
  fin_cases j <;> rfl

theorem lastRow_rotAxis1 (s c : ℚ) : lastRow (rotAxis1 s c) = unitRow := by
  funext j
  fin_cases j <;> rfl

theorem lastRow_rotAxis2 (s c : ℚ) : lastRow (rotAxis2 s c) = unitRow := by
  funext j
  fin_cases j <;> rfl

theorem lastRow_rot2dBuilt (s c : ℚ) : lastRow (rot2dBuilt s c) = unitRow := by
  funext j
  fin_cases j <;> rfl

theorem getD_append_singleton (xs : List ℚ) (y : ℚ) :
    (xs ++ [y]).getD xs.length y = y := by
  induction xs with
  | nil => rfl
  | cons a t ih => simp [ih]

theorem tupleSize_length (xs : List ℚ) (n : ℕ) (pad : ℚ) :
    (tupleSize xs n pad).length = n := by
  simp [tupleSize]
  omega

/-- C9: every matrix produced by the rotate/shear/scale/translate
constructors, for every accepted rank and parameter list, has last row
`[0, …, 0, 1]`. -/
theorem affine_last_row (sinF cosF : ℚ → ℚ) :
    (∀ (radians : List ℚ) (M : Matrix (Fin 3) (Fin 3) ℚ),
      create_rotate2 radians sinF cosF = .ok M → lastRow M = unitRow) ∧
    (∀ (radians : List ℚ) (M : Matrix (Fin 4) (Fin 4) ℚ),
      create_rotate3 radians sinF cosF = .ok M → lastRow M = unitRow) ∧
    (∀ coefs : List ℚ, lastRow (create_shear2 coefs) = unitRow) ∧
    (∀ coefs : List ℚ, lastRow (create_shear3 coefs) = unitRow) ∧
    (∀ (r : ℕ) (factors : List ℚ), lastRow (create_scale r factors) = unitRow) ∧
    (∀ (r : ℕ) (shift : List ℚ), lastRow (create_translate r shift) = unitRow) := by
  refine ⟨?_, ?_, ?_, ?_, ?_, ?_⟩
  · intro radians M h
    cases radians with
    | nil => exact Except.noConfusion h
    | cons a t =>
      injection h with h'
      subst h'
      exact lastRow_rot2dBuilt _ _
  · intro radians M h
    cases radians with
    | nil => exact Except.noConfusion h
    | cons a t =>
      cases t with
      | nil =>
        injection h with h'
        subst h'
        rw [rot0Built_eq]
        exact lastRow_rotAxis0 _ _
      | cons b t2 =>
        cases t2 with
        | nil =>
          injection h with h'
          subst h'
          rw [rot0Built_eq, rot1Built_eq]
          rw [lastRow_mul _ _ (lastRow_rotAxis0 _ _)]
          exact lastRow_rotAxis1 _ _
        | cons d t3 =>
          injection h with h'
          subst h'
          rw [rot0Built_eq, rot1Built_eq, rot2Built_eq]
          rw [lastRow_mul _ _ (by
            rw [lastRow_mul _ _ (lastRow_rotAxis0 _ _)]
            exact lastRow_rotAxis1 _ _)]
          exact lastRow_rotAxis2 _ _
  · intro coefs
    funext j
    fin_cases j <;> simp [create_shear2, updM, lastRow, unitRow, Matrix.one_apply, Fin.last]
  · intro coefs
    funext j
    fin_cases j <;> simp [create_shear3, updM, lastRow, unitRow, Matrix.one_apply, Fin.last]
  · intro r factors
    have hv : (tupleSize factors r 1 ++ [1]).getD ((Fin.last r : Fin (r + 1)) : ℕ) 1 = 1 := by
      have h1 := getD_append_singleton (tupleSize factors r 1) 1
      rw [tupleSize_length] at h1
      exact h1
    funext j
    by_cases hj : (Fin.last r) = j
    · subst hj
      show Matrix.diagonal _ (Fin.last r) (Fin.last r) = unitRow (Fin.last r)
      rw [Matrix.diagonal_apply_eq]
      have hu : unitRow (Fin.last r) = (1 : ℚ) := if_pos rfl
      rw [hu]
      exact hv
    · show Matrix.diagonal _ (Fin.last r) j = unitRow j
      rw [Matrix.diagonal_apply_ne _ hj]
      have hu : unitRow j = (0 : ℚ) := if_neg fun h => hj h.symm
      rw [hu]
  · intro r shift
    funext j
    have hcond : ¬(((j : ℕ) = r) ∧ ((Fin.last r : Fin (r + 1)) : ℕ) < min shift.length r) := by
      rintro ⟨-, hlt⟩
      rw [show ((Fin.last r : Fin (r + 1)) : ℕ) = r from rfl] at hlt
      omega
    show (if ((j : ℕ) = r) ∧ ((Fin.last r : Fin (r + 1)) : ℕ) < min shift.length r
        then shift.getD (Fin.last r) 0
        else (1 : Matrix (Fin (r + 1)) (Fin (r + 1)) ℚ) (Fin.last r) j) = unitRow j
    rw [if_neg hcond]
    by_cases hj : (Fin.last r) = j
    · subst hj
      simp [Matrix.one_apply, unitRow]
    · simp [Matrix.one_apply, unitRow, hj, Ne.symm hj]

/-- C9 witness. -/
theorem affine_last_row_witness :
    lastRow (rot2dBuilt ((fun _ => (0 : ℚ)) 0) ((fun _ => (1 : ℚ)) 0)) = unitRow ∧
    lastRow (rot0Built ((fun _ => (0 : ℚ)) 0) ((fun _ => (1 : ℚ)) 0)) = unitRow := by
  constructor
  · exact (affine_last_row (fun _ => 0) (fun _ => 1)).1 [0] _ rfl
  · exact (affine_last_row (fun _ => 0) (fun _ => 1)).2.1 [0] _ rfl

